import Mathlib

/-!
Verification development for the classical-japanese-assistant repository.

The definitions below are a shallow embedding of the Python sources:
  * `question_classifier.py` — keyword classification, retrieval metrics and
    the routing decision matrix (`QuestionClassifier`),
  * `rag_assistant.py` — the streaming router `_stream_with_context` and the
    classification/telemetry part of `query_hybrid_stream`,
  * `app.py` — the per-session stop registry and `stop_generation_handler`.

Strings are modelled as `List Char`; Python floats are modelled as exact
rationals `ℚ`; fallible steps are modelled with `Except`.
-/

/-! ### Basic string machinery (Python `in` and `str.split(pat, 1)`) -/

/-- Boolean test that `p` is a prefix of `s` (character-wise). -/
def startsWith : List Char → List Char → Bool
  | [], _ => true
  | _ :: _, [] => false
  | p :: ps, c :: cs => p == c && startsWith ps cs

/-- Leftmost-occurrence splitter: `splitFirst pat s = some (b, a)` when
`s = b ++ pat ++ a` and the occurrence of `pat` is the first one; `none`
when `pat` does not occur in `s`.  This models both Python's
`pat in s` test (`isSome`) and `s.split(pat, 1)` for one occurrence. -/
def splitFirst (pat : List Char) : List Char → Option (List Char × List Char)
  | [] => none
  | c :: rest =>
    if startsWith pat (c :: rest) then some ([], (c :: rest).drop pat.length)
    else
      match splitFirst pat rest with
      | some (b, a) => some (c :: b, a)
      | none => none

/-- Python's substring test `pat in s` (for the nonempty patterns used here). -/
def containsSub (pat s : List Char) : Bool := (splitFirst pat s).isSome

/-- Python `str.lower()` restricted to the ASCII range, which is all the
sources ever lowercase (keywords and questions; kana are unaffected). -/
def lowerStr (s : List Char) : List Char := s.map Char.toLower

/-! ### Events of the streaming router (`rag_assistant._stream_with_context`)

The dictionaries yielded by the generator are modelled by their `type` tag
and, for `thinking`/`answer`, their `token` text.  `model_info` is the
header dictionary, `final` is a `done: True` dictionary of type `final`,
and `error` is the dictionary yielded by the `except` clause. -/

inductive Ev where
  | model_info
  | thinking (s : List Char)
  | answer (s : List Char)
  | final
  | error
deriving DecidableEq

/-- The dictionary `type` is `thinking` or `answer` (a content event). -/
def isContentB : Ev → Bool
  | Ev.thinking _ => true
  | Ev.answer _ => true
  | _ => false

/-- The dictionary is a terminal event (`final` or `error`). -/
def isTerminalB : Ev → Bool
  | Ev.final => true
  | Ev.error => true
  | _ => false

/-- The opening delimiter scanned for in the tag-aware streaming loop. -/
def thinkOpen : List Char := "<think>".toList

/-- The closing delimiter scanned for in the tag-aware streaming loop. -/
def thinkClose : List Char := "</think>".toList

/-- Fuel-indexed version of the `while True` tag-scanning loop of
`_stream_with_context` (lines 390-420): while not inside thinking, split at
the first `<think>` and emit what precedes it as per-character `answer`
events; while inside thinking, split at the first `</think>` and emit what
precedes it as one `thinking` event; stop when the sought delimiter is
absent.  Each successful split removes the delimiter from the buffer, so
`fuel = buf.length` always suffices (`tagLoopAux_fuel`). -/
def tagLoopAux : Nat → Bool → List Char → List Ev × Bool × List Char
  | 0, in_thinking, buffer => ([], in_thinking, buffer)
  | fuel + 1, in_thinking, buffer =>
    if in_thinking then
      match splitFirst thinkClose buffer with
      | some (thinking, after) =>
        let r := tagLoopAux fuel false after
        (Ev.thinking thinking :: r.1, r.2)
      | none => ([], true, buffer)
    else
      match splitFirst thinkOpen buffer with
      | some (before, after) =>
        let r := tagLoopAux fuel true after
        (before.map (fun ch => Ev.answer [ch]) ++ r.1, r.2)
      | none => ([], false, buffer)

/-- The tag-scanning loop run to completion on a buffer. -/
def tagLoop (in_thinking : Bool) (buffer : List Char) : List Ev × Bool × List Char :=
  tagLoopAux buffer.length in_thinking buffer

/-- Processing of one backend token in thinking-model mode
(`_stream_with_context` lines 385-438): append the token to the (empty)
buffer, run the tag loop, then flush whatever remains of the buffer as a
single `thinking` or `answer` event according to the current state.  The
buffer is cleared at the end of every token, so only the boolean
`in_thinking` state survives to the next token. -/
def processChunk (in_thinking : Bool) (token : List Char) : List Ev × Bool :=
  let r := tagLoop in_thinking token
  let st := r.2.1
  let rest := r.2.2
  (r.1 ++ (if rest.isEmpty then [] else [if st then Ev.thinking rest else Ev.answer rest]), st)

/-- One parsed JSON chunk of the Ollama byte stream: its `response` text
(`[]` models an absent or empty, i.e. falsy, `response`) and `done` flag. -/
structure Chunk where
  response : List Char
  done : Bool
deriving DecidableEq

/-- One iteration's input in `for line in response.iter_lines()`: an empty
or non-JSON line (`junk`, skipped), a parsed chunk, or an exception raised
while reading the stream (`exc`, which lands in the `except` clause). -/
inductive Line where
  | junk
  | exc
  | chunk (c : Chunk)
deriving DecidableEq

/-- The session's cancellation flag as observed at iteration `i` of the
streaming loop: `stopAt = some n` means the flag is set in time for every
check from iteration `n` on (the flag is only ever set, never cleared,
during one generation). -/
def stoppedAt (stopAt : Option Nat) (i : Nat) : Bool :=
  match stopAt with
  | none => false
  | some n => decide (n ≤ i)

/-- The token loop of `_stream_with_context` (lines 364-464) from a given
iteration index and tag state.  Per iteration: reading the next line may
raise (`exc` → the `except` clause yields one `error` event and the
generator ends); otherwise the stop flag is checked first (set → one
`final` event and return); empty/undecodable lines are skipped; a chunk
with truthy `response` is processed (tag-aware when `is_thinking`,
otherwise directly as one `answer` event); a chunk with `done` yields one
`final` event and breaks.  When the line list ends the generator simply
ends: no event is produced. -/
def streamLoop (stopAt : Option Nat) (is_thinking : Bool) :
    List Line → Nat → Bool → List Ev
  | [], _, _ => []
  | Line.exc :: _, _, _ => [Ev.error]
  | Line.junk :: rest, i, in_thinking =>
    if stoppedAt stopAt i then [Ev.final]
    else streamLoop stopAt is_thinking rest (i + 1) in_thinking
  | Line.chunk c :: rest, i, in_thinking =>
    if stoppedAt stopAt i then [Ev.final]
    else
      let p :=
        if c.response.isEmpty then ([], in_thinking)
        else if is_thinking then processChunk in_thinking c.response
        else ([Ev.answer c.response], in_thinking)
      if c.done then p.1 ++ [Ev.final]
      else p.1 ++ streamLoop stopAt is_thinking rest (i + 1) p.2

/-- The whole event sequence of `_stream_with_context` after the streaming
request succeeded: the `model_info` dictionary is yielded first, then the
token loop runs with the buffer empty and `in_thinking = False`. -/
def streamEvents (stopAt : Option Nat) (is_thinking : Bool) (lines : List Line) : List Ev :=
  Ev.model_info :: streamLoop stopAt is_thinking lines 0 false

/-- Wraps raw token texts as non-`done` chunk lines, the shape of a backend
stream that delivers text split into sub-chunks. -/
def chunkLines (cs : List (List Char)) : List Line :=
  cs.map (fun c => Line.chunk { response := c, done := false })

/-- Folding `processChunk` over successive tokens from a tag state: the
per-token action of the thinking-mode branch of the token loop. -/
def runChunks : Bool → List (List Char) → List Ev × Bool
  | st, [] => ([], st)
  | st, c :: rest =>
    let p := processChunk st c
    let r := runChunks p.2 rest
    (p.1 ++ r.1, r.2)

/-- Concatenation of the texts of all `thinking` events. -/
def thinkingText (evs : List Ev) : List Char :=
  (evs.map (fun e => match e with | Ev.thinking s => s | _ => [])).flatten

/-- Concatenation of the texts of all `answer` events. -/
def answerText (evs : List Ev) : List Char :=
  (evs.map (fun e => match e with | Ev.answer s => s | _ => [])).flatten

/-- A splitting of the text `<think> ++ X ++ </think> ++ Y` into sub-chunks
in which each delimiter occurrence lies entirely inside a single sub-chunk:
either one sub-chunk carries both delimiters, or the first sub-chunk starts
with the opening delimiter and some later sub-chunk carries the closing
delimiter, with every sub-chunk in between lying inside `X` and every
sub-chunk after lying inside `Y`. -/
def isAlignedChunking (X Y : List Char) (cs : List (List Char)) : Prop :=
  (∃ y0 ys, cs = (thinkOpen ++ X ++ thinkClose ++ y0) :: ys ∧ Y = y0 ++ ys.flatten) ∨
  (∃ x0 xs xl y0 ys,
    cs = (thinkOpen ++ x0) :: xs ++ (xl ++ thinkClose ++ y0) :: ys ∧
    X = x0 ++ xs.flatten ++ xl ∧ Y = y0 ++ ys.flatten)

/-- A line whose iteration neither raises nor carries a `done` marker, so
the token loop continues past it (used to express that the loop is still
running when a cancellation flag is checked). -/
def nonTerminalLine : Line → Bool
  | Line.junk => true
  | Line.exc => false
  | Line.chunk c => !c.done

/-! ### The question classifier (`question_classifier.py`) -/

/-- Keyword list `QuestionClassifier.GRAMMAR_KEYWORDS` (lines 30-34). -/
def GRAMMAR_KEYWORDS : List String :=
  ["particle", "auxiliary", "conjugation", "tense", "form", "grammar", "rule",
   "ending", "suffix", "prefix", "inflection", "case", "aspect", "mood",
   "助詞", "助動詞", "活用", "語尾", "文法", "けり", "なり", "たり", "ぬ", "つ"]

/-- Keyword list `QuestionClassifier.LITERATURE_KEYWORDS` (lines 36-42). -/
def LITERATURE_KEYWORDS : List String :=
  ["poem", "poetry", "genji", "tale", "kokin", "manyou", "author", "work",
   "heian", "kamakura", "court", "culture", "emperor", "empress", "novel",
   "chronicle", "diary", "sei shonagon", "murasaki", "basho", "issa",
   "歌", "詩", "物語", "日記", "源氏", "枕草子", "万葉", "古今", "新古今",
   "作者", "天皇", "中宮", "宮廷", "文化", "平安", "鎌倉"]

/-- Keyword list `QuestionClassifier.HYBRID_KEYWORDS` (lines 44-49). -/
def HYBRID_KEYWORDS : List String :=
  ["example", "usage", "appears", "used in", "how does", "literature", "context",
   "meaning", "interpretation", "analysis", "compare", "difference", "similar",
   "explain", "clarify", "demonstrate", "illustrate", "show me",
   "例", "使用", "用法", "意味", "解釈", "分析", "説明", "例示", "違い", "比較"]

/-- Keywords of a category whose lowercased text occurs in the lowercased
question (`classify_keywords`, the three keyword loops). -/
def matchKeywords (kws : List String) (question_lower : List Char) : List String :=
  kws.filter (fun k => containsSub (lowerStr k.toList) question_lower)

/-- The `GENERAL_PATTERNS` regex searches of `classify_keywords` (lines
52-61 and 98-101).  Every pattern is a literal except the two alternation
groups, which are expanded: `who (was|is)` matches when `who was` or
`who is` occurs, and `when (was|did)` likewise. -/
def generalPatternSearch (question_lower : List Char) : List String :=
  (if containsSub "tell me about".toList question_lower then ["tell me about"] else []) ++
  (if containsSub "what do you know about".toList question_lower then
    ["what do you know about"] else []) ++
  (if containsSub "background of".toList question_lower then ["background of"] else []) ++
  (if containsSub "history of".toList question_lower then ["history of"] else []) ++
  (if containsSub "who was".toList question_lower || containsSub "who is".toList question_lower
    then ["who (was|is)"] else []) ++
  (if containsSub "when was".toList question_lower || containsSub "when did".toList question_lower
    then ["when (was|did)"] else []) ++
  (if containsSub "cultural significance".toList question_lower then
    ["cultural significance"] else []) ++
  (if containsSub "influence of".toList question_lower then ["influence of"] else [])

/-- The `signals` dictionary built by `classify_keywords`. -/
structure KeywordSignals where
  grammar : List String
  literature : List String
  hybrid : List String
  general_patterns : List String
deriving DecidableEq

/-- `QuestionClassifier.classify_keywords` (lines 72-103). -/
def classify_keywords (question : List Char) : KeywordSignals :=
  let question_lower := lowerStr question
  { grammar := matchKeywords GRAMMAR_KEYWORDS question_lower
    literature := matchKeywords LITERATURE_KEYWORDS question_lower
    hybrid := matchKeywords HYBRID_KEYWORDS question_lower
    general_patterns := generalPatternSearch question_lower }

/-- One entry of the `search_results` list handed to the classifier: its
text, its `metadata.get('source')` and its `get('distance')` value (the
`Option`s model absent dictionary keys). -/
structure SearchResult where
  text : List Char
  source : Option String
  distance : Option ℚ
deriving DecidableEq

/-- `r.get('distance', 1.0)` in `calculate_retrieval_metrics`. -/
def getDistance (r : SearchResult) : ℚ := r.distance.getD 1

/-- `result.get('metadata', {}).get('source', 'unknown')`. -/
def getSource (r : SearchResult) : String := r.source.getD "unknown"

/-- The tunable thresholds held by a `QuestionClassifier` instance. -/
structure Classifier where
  hit_density_threshold : ℚ
  diversity_min_sources : ℚ
  distance_threshold : ℚ
deriving DecidableEq

/-- The constructor defaults of `QuestionClassifier.__init__` (lines 63-70). -/
def defaultClassifier : Classifier :=
  { hit_density_threshold := 0.40, diversity_min_sources := 2, distance_threshold := 0.40 }

/-- The metrics dictionary of `calculate_retrieval_metrics`. -/
structure RetrievalMetrics where
  hit_density : ℚ
  avg_distance : ℚ
  source_diversity : ℚ
  top_k_count : ℚ
deriving DecidableEq

/-- `QuestionClassifier.calculate_retrieval_metrics` (lines 105-136). -/
def calculate_retrieval_metrics (c : Classifier) (search_results : List SearchResult) :
    RetrievalMetrics :=
  if search_results.isEmpty then
    { hit_density := 0, avg_distance := 1, source_diversity := 0, top_k_count := 0 }
  else
    { hit_density :=
        ((search_results.filter (fun r => getDistance r ≤ c.distance_threshold)).length : ℚ) /
          (search_results.length : ℚ)
      avg_distance := ((search_results.map getDistance).sum) / (search_results.length : ℚ)
      source_diversity := (((search_results.map getSource).dedup).length : ℚ)
      top_k_count := (search_results.length : ℚ) }

/-- The `(route, confidence, explanation)` triple of `_route_decision`. -/
structure RouteResult where
  route : String
  confidence : ℚ
  explanation : String
deriving DecidableEq

/-- `QuestionClassifier._route_decision` (lines 164-213).  `m = none`
models the empty metrics dictionary (no retrieval results supplied): every
`.get` falls back to its default, `hit_density = 0.0` and
`source_diversity = 0.0`.  The interpolated numbers of the explanation
f-strings are elided; `avg_distance` is extracted by the source but never
used in the decisions. -/
def route_decision (c : Classifier) (ks : KeywordSignals) (m : Option RetrievalMetrics) :
    RouteResult :=
  let hit_density : ℚ := match m with | some mm => mm.hit_density | none => 0
  let source_diversity : ℚ := match m with | some mm => mm.source_diversity | none => 0
  let grammar_signals := ks.grammar.length
  let literature_signals := ks.literature.length
  let hybrid_signals := ks.hybrid.length
  let general_patterns := ks.general_patterns.length
  if hit_density ≥ c.hit_density_threshold ∧ source_diversity ≥ c.diversity_min_sources ∧
      0 < grammar_signals ∧ general_patterns = 0 then
    { route := "RAG"
      confidence := min 0.9 (0.5 + hit_density * 0.4 + (min grammar_signals 3 : ℚ) * 0.1)
      explanation := "Strong textbook hits + grammar focus" }
  else if hit_density < 0.2 ∧ (0 < literature_signals ∨ 0 < general_patterns) then
    { route := "GENERAL"
      confidence := min 0.8 (0.4 + ((literature_signals : ℚ) + (general_patterns : ℚ)) * 0.15)
      explanation := "Low textbook relevance + literature/cultural focus" }
  else if 0 < hybrid_signals ∨ (0.2 ≤ hit_density ∧ hit_density < c.hit_density_threshold) ∨
      (0 < grammar_signals ∧ 0 < literature_signals) then
    { route := "HYBRID"
      confidence := 0.3 + hit_density * 0.3 + (hybrid_signals : ℚ) * 0.1
      explanation := "Mixed signals or medium textbook relevance" }
  else
    { route := "HYBRID"
      confidence := 0.2 + hit_density * 0.2
      explanation := "Unclear signals, defaulting to hybrid approach" }

/-- The dataclass `ClassificationResult` (lines 17-24). -/
structure ClassificationResult where
  route : String
  confidence : ℚ
  keyword_signals : KeywordSignals
  retrieval_metrics : Option RetrievalMetrics
  explanation : String
deriving DecidableEq

/-- `QuestionClassifier.classify_with_retrieval` (lines 138-162):
`search_results = none` models the `None` default, for which the metrics
dictionary stays empty. -/
def classify_with_retrieval (c : Classifier) (question : List Char)
    (search_results : Option (List SearchResult)) : ClassificationResult :=
  let keyword_signals := classify_keywords question
  let retrieval_metrics := search_results.map (calculate_retrieval_metrics c)
  let rd := route_decision c keyword_signals retrieval_metrics
  { route := rd.route, confidence := rd.confidence, keyword_signals := keyword_signals,
    retrieval_metrics := retrieval_metrics, explanation := rd.explanation }

/-- `QuestionClassifier.update_thresholds` (lines 215-228): three
sequential `if arg is not None` assignments. -/
def update_thresholds (c : Classifier) (hit_density_threshold : Option ℚ)
    (diversity_min_sources : Option ℚ) (distance_threshold : Option ℚ) : Classifier :=
  let c1 := match hit_density_threshold with
    | some v => { c with hit_density_threshold := v }
    | none => c
  let c2 := match diversity_min_sources with
    | some v => { c1 with diversity_min_sources := v }
    | none => c1
  match distance_threshold with
  | some v => { c2 with distance_threshold := v }
  | none => c2

/-! ### Classification and telemetry in `query_hybrid_stream`
(`rag_assistant.py` lines 185-227) -/

/-- One entry of `self.route_telemetry` (lines 211-218). -/
structure TelemetryEntry where
  question : List Char
  route : String
  confidence : ℚ
  manual_override : Bool
  retrieval_metrics : Option RetrievalMetrics
  keyword_signals : KeywordSignals
deriving DecidableEq

/-- The classification and telemetry steps of `query_hybrid_stream` (lines
201-219): in `auto` mode the variable `knowledge_mode` is reassigned to the
classified route; in manual mode `classification.route` is overwritten with
the caller's choice; the telemetry flag is then computed as
`knowledge_mode != classification.route`. -/
def query_hybrid_route (c : Classifier) (question : List Char) (knowledge_mode : String)
    (classifier_results : List SearchResult) : ClassificationResult × TelemetryEntry :=
  let classification0 := classify_with_retrieval c question (some classifier_results)
  let km := if knowledge_mode = "auto" then classification0.route else knowledge_mode
  let classification :=
    if knowledge_mode = "auto" then classification0
    else { classification0 with route := knowledge_mode }
  let telemetry : TelemetryEntry :=
    { question := question.take 100
      route := classification.route
      confidence := classification.confidence
      manual_override := km != classification.route
      retrieval_metrics := classification.retrieval_metrics
      keyword_signals := classification.keyword_signals }
  (classification, telemetry)

/-- The raw dictionary returned by `vector_store.search` (ChromaDB shape):
batched lists of documents, of `metadata.get('source')` values and of
`get('distance')` values. -/
structure RawSearchResults where
  documents : List (List (List Char))
  metadatas : List (List (Option String))
  distances : List (List (Option ℚ))

/-- The `classifier_results` preparation of `query_hybrid_stream` (lines
191-199): nothing is prepared unless `documents` is truthy and its first
batch is truthy; otherwise the three first batches are joined entrywise. -/
def prepare_classifier_results (sr : RawSearchResults) : List SearchResult :=
  match sr.documents with
  | [] => []
  | d0 :: _ =>
    let m0 := sr.metadatas.headD []
    let dist0 := sr.distances.headD []
    (d0.zip (m0.zip dist0)).map (fun x => { text := x.1, source := x.2.1, distance := x.2.2 })

/-- The retrieval and classification phase of `query_hybrid_stream` (lines
185-219).  The call to `self.vector_store.search` is not wrapped in any
`try`: an exception raised there propagates to the caller (`.error`); a
successful search result is prepared and classified. -/
def query_hybrid_stream_model (c : Classifier) (question : List Char) (knowledge_mode : String)
    (search : Except String RawSearchResults) :
    Except String (ClassificationResult × TelemetryEntry) :=
  match search with
  | Except.error e => Except.error e
  | Except.ok sr => Except.ok (query_hybrid_route c question knowledge_mode
      (prepare_classifier_results sr))

/-! ### The per-session stop registry (`app.py` lines 27, 54-57, 526-530)

`session_stop_events` maps a session id to its own `threading.Event`; the
registry is modelled as a partial map from session id to the flag state of
that session's event.  `stop_generation_handler` looks the id up with
`.get` and calls `.set()` on the event when one is present, which mutates
only that session's entry. -/

def stop_generation_handler (current_session_id : String)
    (session_stop_events : String → Option Bool) : String → Option Bool :=
  match session_stop_events current_session_id with
  | some _ => fun sid =>
      if sid = current_session_id then some true else session_stop_events sid
  | none => session_stop_events

/-! ### Properties of `startsWith` and `splitFirst` -/

theorem startsWith_iff (p : List Char) : ∀ s, startsWith p s = true ↔ ∃ t, s = p ++ t := by
  induction p with
  | nil => intro s; simp [startsWith]
  | cons a ps ih =>
    intro s
    cases s with
    | nil =>
      constructor
      · intro h; exact Bool.noConfusion h
      · rintro ⟨t, ht⟩; exact List.noConfusion ht
    | cons c cs =>
      simp only [startsWith, Bool.and_eq_true, beq_iff_eq, ih cs, List.cons_append,
        List.cons.injEq]
      constructor
      · rintro ⟨h1, t, h2⟩; exact ⟨t, h1.symm, h2⟩
      · rintro ⟨t, h1, h2⟩; exact ⟨h1.symm, t, h2⟩

theorem splitFirst_eq (pat : List Char) :
    ∀ s b a, splitFirst pat s = some (b, a) → s = b ++ pat ++ a := by
  intro s
  induction s with
  | nil => intro b a h; simp [splitFirst] at h
  | cons c cs ih =>
    intro b a h
    simp only [splitFirst] at h
    by_cases hs : startsWith pat (c :: cs) = true
    · rw [if_pos hs] at h
      obtain ⟨t, ht⟩ := (startsWith_iff pat (c :: cs)).mp hs
      obtain ⟨hb, ha⟩ := Prod.mk.injEq .. ▸ Option.some.injEq .. ▸ h
      subst hb
      rw [ht, List.drop_left] at ha
      rw [ht, ← ha]
      simp
    · rw [if_neg hs] at h
      cases hsf : splitFirst pat cs with
      | none => rw [hsf] at h; exact Option.noConfusion h
      | some pr =>
        obtain ⟨b', a'⟩ := pr
        rw [hsf] at h
        obtain ⟨hb, ha⟩ := Prod.mk.injEq .. ▸ Option.some.injEq .. ▸ h
        subst hb ha
        have := ih b' a' hsf
        simp [this]

theorem splitFirst_self (pat t : List Char) (hp : pat ≠ []) :
    splitFirst pat (pat ++ t) = some ([], t) := by
  cases pat with
  | nil => exact absurd rfl hp
  | cons p ps =>
    have hs : startsWith (p :: ps) ((p :: ps) ++ t) = true :=
      (startsWith_iff _ _).mpr ⟨t, rfl⟩
    have hd : ((p :: ps) ++ t).drop (p :: ps).length = t := List.drop_left _ _
    simp only [List.cons_append] at hs hd ⊢
    simp only [splitFirst, if_pos hs, hd]

theorem containsSub_of_eq (pat : List Char) (hp : pat ≠ []) :
    ∀ u v, containsSub pat (u ++ pat ++ v) = true := by
  intro u
  induction u with
  | nil => intro v; simp [containsSub, splitFirst_self pat v hp]
  | cons c u' ih =>
    intro v
    have hshape : (c :: u') ++ pat ++ v = c :: (u' ++ pat ++ v) := by simp
    rw [containsSub, hshape]
    simp only [splitFirst]
    by_cases hs : startsWith pat (c :: (u' ++ pat ++ v)) = true
    · rw [if_pos hs]; rfl
    · rw [if_neg hs]
      have ihv := ih v
      rw [containsSub] at ihv
      cases hsf : splitFirst pat (u' ++ pat ++ v) with
      | none => rw [hsf] at ihv; exact Bool.noConfusion ihv
      | some pr => cases pr; simp

theorem containsSub_split (pat s u c v : List Char) (hp : pat ≠ [])
    (hs : containsSub pat s = false) (h : s = u ++ c ++ v) : containsSub pat c = false := by
  by_contra hc
  rw [Bool.not_eq_false, containsSub, Option.isSome_iff_exists] at hc
  obtain ⟨⟨b, a⟩, hsf⟩ := hc
  have hcba := splitFirst_eq pat c b a hsf
  have : s = (u ++ b) ++ pat ++ (a ++ v) := by rw [h, hcba]; simp
  rw [this, containsSub_of_eq pat hp (u ++ b) (a ++ v)] at hs
  exact Bool.noConfusion hs

/-- The closing delimiter has no nontrivial border: no proper nonempty
suffix of it is also a prefix of it.  This is what makes the leftmost
occurrence of `</think>` in `x ++ </think> ++ y` start at `x.length`
whenever `x` itself contains no occurrence. -/
theorem thinkClose_no_border :
    ∀ k, k < 8 → 1 ≤ k → thinkClose.drop k ≠ thinkClose.take (8 - k) := by decide

theorem startsWith_close_false (x2 u x y : List Char)
    (hX : containsSub thinkClose x = false) (hx : x = u ++ x2) (hne : x2 ≠ []) :
    startsWith thinkClose (x2 ++ thinkClose ++ y) = false := by
  by_contra hb
  rw [Bool.not_eq_false] at hb
  obtain ⟨t, ht⟩ := (startsWith_iff _ _).mp hb
  have h8 : thinkClose.length = 8 := by decide
  rcases le_or_lt 8 x2.length with hk | hk
  · have h1 : x2.take 8 = thinkClose := by
      have := congrArg (List.take 8) ht
      rw [List.append_assoc, List.take_append_of_le_length hk, ← h8, List.take_left] at this
      exact this
    have hx2 : x2 = thinkClose ++ x2.drop 8 := by
      conv_lhs => rw [← List.take_append_drop 8 x2]
      rw [h1]
    have hxx : x = u ++ thinkClose ++ x2.drop 8 := by
      rw [hx, List.append_assoc]
      exact congrArg (fun z => u ++ z) hx2
    rw [hxx, containsSub_of_eq thinkClose (by decide) u (x2.drop 8)] at hX
    exact Bool.noConfusion hX
  · have h1 : x2 ++ thinkClose.take (8 - x2.length) = thinkClose := by
      have := congrArg (List.take 8) ht
      rw [List.append_assoc, List.take_append_eq_append_take,
        List.take_of_length_le (le_of_lt hk), List.take_append_of_le_length (by omega),
        ← h8, List.take_left] at this
      exact this
    have h2 : thinkClose.drop x2.length = thinkClose.take (8 - x2.length) := by
      conv_lhs => rw [← h1]
      rw [List.drop_left]
    exact thinkClose_no_border x2.length hk
      (by have := List.length_pos.mpr hne; omega) h2

theorem splitFirst_mid (pat y : List Char) (hp : pat ≠ []) :
    ∀ x : List Char,
      (∀ x2 u, x = u ++ x2 → x2 ≠ [] → startsWith pat (x2 ++ pat ++ y) = false) →
      splitFirst pat (x ++ pat ++ y) = some (x, y) := by
  intro x
  induction x with
  | nil => intro _; simpa using splitFirst_self pat y hp
  | cons c x' ih =>
    intro hno
    have hsw : startsWith pat ((c :: x') ++ pat ++ y) = false :=
      hno (c :: x') [] rfl (by simp)
    have hrec := ih (fun x2 u h hne => hno x2 (c :: u) (by simp [h]) hne)
    simp only [List.cons_append, List.append_assoc] at hsw hrec ⊢
    simp only [splitFirst, hrec]
    rw [if_neg (by rw [hsw]; exact fun h => Bool.noConfusion h)]

theorem splitFirst_close_chunk (x y0 : List Char)
    (hx : containsSub thinkClose x = false) :
    splitFirst thinkClose (x ++ thinkClose ++ y0) = some (x, y0) :=
  splitFirst_mid thinkClose y0 (by decide) x
    (fun x2 u h hne => startsWith_close_false x2 u x y0 hx h hne)

theorem splitFirst_of_not_contains (pat s : List Char) (h : containsSub pat s = false) :
    splitFirst pat s = none := by
  cases hsf : splitFirst pat s with
  | none => rfl
  | some pr => rw [containsSub, hsf] at h; exact Bool.noConfusion h

/-! ### Properties of the tag-scanning loop -/

theorem tagLoopAux_nil (f : Nat) (s : Bool) : tagLoopAux f s [] = ([], s, []) := by
  cases f with
  | zero => rfl
  | succ k => cases s <;> simp [tagLoopAux, splitFirst]

theorem thinkOpen_length : thinkOpen.length = 7 := by decide

theorem thinkClose_length : thinkClose.length = 8 := by decide

theorem tagLoopAux_fuel : ∀ f1 f2 (s : Bool) (buf : List Char),
    buf.length ≤ f1 → buf.length ≤ f2 → tagLoopAux f1 s buf = tagLoopAux f2 s buf := by
  intro f1
  induction f1 with
  | zero =>
    intro f2 s buf h1 _
    have hbuf : buf = [] := List.eq_nil_of_length_eq_zero (Nat.le_zero.mp h1)
    subst hbuf
    rw [tagLoopAux_nil, tagLoopAux_nil]
  | succ k ih =>
    intro f2 s buf h1 h2
    cases buf with
    | nil => rw [tagLoopAux_nil, tagLoopAux_nil]
    | cons c cs =>
      cases f2 with
      | zero => simp at h2
      | succ m =>
        cases s with
        | true =>
          simp only [tagLoopAux, if_true]
          cases hsf : splitFirst thinkClose (c :: cs) with
          | none => rfl
          | some pr =>
            obtain ⟨t, a⟩ := pr
            have hshape := splitFirst_eq _ _ _ _ hsf
            have hlen : (c :: cs).length = t.length + 8 + a.length := by
              rw [hshape]; simp [List.length_append, thinkClose_length]; omega
            simp only []
            rw [ih m false a (by omega) (by omega)]
        | false =>
          simp only [tagLoopAux, Bool.false_eq_true, if_false]
          cases hsf : splitFirst thinkOpen (c :: cs) with
          | none => rfl
          | some pr =>
            obtain ⟨b, a⟩ := pr
            have hshape := splitFirst_eq _ _ _ _ hsf
            have hlen : (c :: cs).length = b.length + 7 + a.length := by
              rw [hshape]; simp [List.length_append, thinkOpen_length]; omega
            simp only []
            rw [ih m true a (by omega) (by omega)]

theorem tagLoop_none_true (buf : List Char) (h : splitFirst thinkClose buf = none) :
    tagLoop true buf = ([], true, buf) := by
  cases buf with
  | nil => rw [tagLoop]; exact tagLoopAux_nil _ _
  | cons c cs =>
    rw [tagLoop]
    simp only [List.length_cons, tagLoopAux, if_true, h]

theorem tagLoop_none_false (buf : List Char) (h : splitFirst thinkOpen buf = none) :
    tagLoop false buf = ([], false, buf) := by
  cases buf with
  | nil => rw [tagLoop]; exact tagLoopAux_nil _ _
  | cons c cs =>
    rw [tagLoop]
    simp only [List.length_cons, tagLoopAux, Bool.false_eq_true, if_false, h]

theorem tagLoop_some_true (buf t a : List Char) (h : splitFirst thinkClose buf = some (t, a)) :
    tagLoop true buf = (Ev.thinking t :: (tagLoop false a).1, (tagLoop false a).2) := by
  have hshape := splitFirst_eq _ _ _ _ h
  have hlen : buf.length = t.length + 8 + a.length := by
    rw [hshape]; simp [List.length_append, thinkClose_length]; omega
  rw [tagLoop, hlen, show t.length + 8 + a.length = (t.length + 7 + a.length) + 1 by omega]
  simp only [tagLoopAux, if_true, h]
  rw [tagLoopAux_fuel (t.length + 7 + a.length) a.length false a (by omega) (le_refl _)]
  rfl

theorem tagLoop_some_false (buf b a : List Char) (h : splitFirst thinkOpen buf = some (b, a)) :
    tagLoop false buf =
      (b.map (fun ch => Ev.answer [ch]) ++ (tagLoop true a).1, (tagLoop true a).2) := by
  have hshape := splitFirst_eq _ _ _ _ h
  have hlen : buf.length = b.length + 7 + a.length := by
    rw [hshape]; simp [List.length_append, thinkOpen_length]; omega
  rw [tagLoop, hlen, show b.length + 7 + a.length = (b.length + 6 + a.length) + 1 by omega]
  simp only [tagLoopAux, Bool.false_eq_true, if_false, h]
  rw [tagLoopAux_fuel (b.length + 6 + a.length) a.length true a (by omega) (le_refl _)]
  rfl

/-! ### Properties of per-token processing -/

theorem processChunk_nil (s : Bool) : processChunk s [] = ([], s) := by
  rw [processChunk, tagLoop, tagLoopAux_nil]
  simp

theorem processChunk_think (c : List Char) (h : containsSub thinkClose c = false) :
    processChunk true c = ((if c.isEmpty then [] else [Ev.thinking c]), true) := by
  rw [processChunk, tagLoop_none_true c (splitFirst_of_not_contains _ _ h)]
  simp

theorem processChunk_answer (c : List Char) (h : containsSub thinkOpen c = false) :
    processChunk false c = ((if c.isEmpty then [] else [Ev.answer c]), false) := by
  rw [processChunk, tagLoop_none_false c (splitFirst_of_not_contains _ _ h)]
  simp

theorem processChunk_openTag (x0 : List Char) (h : containsSub thinkClose x0 = false) :
    processChunk false (thinkOpen ++ x0) = ((if x0.isEmpty then [] else [Ev.thinking x0]), true) := by
  rw [processChunk, tagLoop_some_false _ _ _ (splitFirst_self thinkOpen x0 (by decide)),
    tagLoop_none_true x0 (splitFirst_of_not_contains _ _ h)]
  simp

theorem processChunk_closeTag (xl y0 : List Char) (hxl : containsSub thinkClose xl = false)
    (hy0 : containsSub thinkOpen y0 = false) :
    processChunk true (xl ++ thinkClose ++ y0) =
      (Ev.thinking xl :: (if y0.isEmpty then [] else [Ev.answer y0]), false) := by
  rw [processChunk, tagLoop_some_true _ _ _ (splitFirst_close_chunk xl y0 hxl),
    tagLoop_none_false y0 (splitFirst_of_not_contains _ _ hy0)]
  simp

theorem processChunk_bothTags (X y0 : List Char) (hX : containsSub thinkClose X = false)
    (hy0 : containsSub thinkOpen y0 = false) :
    processChunk false (thinkOpen ++ X ++ thinkClose ++ y0) =
      (Ev.thinking X :: (if y0.isEmpty then [] else [Ev.answer y0]), false) := by
  have h1 : splitFirst thinkOpen (thinkOpen ++ X ++ thinkClose ++ y0) =
      some ([], X ++ thinkClose ++ y0) := by
    have := splitFirst_self thinkOpen (X ++ thinkClose ++ y0) (by decide)
    simpa [List.append_assoc] using this
  rw [processChunk, tagLoop_some_false _ _ _ h1,
    tagLoop_some_true _ _ _ (splitFirst_close_chunk X y0 hX),
    tagLoop_none_false y0 (splitFirst_of_not_contains _ _ hy0)]
  simp

/-! ### Text-concatenation bookkeeping -/

theorem thinkingText_append (a b : List Ev) :
    thinkingText (a ++ b) = thinkingText a ++ thinkingText b := by
  simp [thinkingText]

theorem answerText_append (a b : List Ev) :
    answerText (a ++ b) = answerText a ++ answerText b := by
  simp [answerText]

theorem thinkingText_flush (c : List Char) :
    thinkingText (if c.isEmpty then [] else [Ev.thinking c]) = c := by
  cases c <;> simp [thinkingText]

theorem answerText_flush (c : List Char) :
    answerText (if c.isEmpty then [] else [Ev.answer c]) = c := by
  cases c <;> simp [answerText]

theorem answerText_flush_think (c : List Char) :
    answerText (if c.isEmpty then [] else [Ev.thinking c]) = [] := by
  cases c <;> simp [answerText]

theorem thinkingText_flush_ans (c : List Char) :
    thinkingText (if c.isEmpty then [] else [Ev.answer c]) = [] := by
  cases c <;> simp [thinkingText]

/-! ### Runs of clean tokens -/

theorem runChunks_thinking_run (cs : List (List Char))
    (h : ∀ c ∈ cs, containsSub thinkClose c = false) :
    (runChunks true cs).2 = true ∧
    thinkingText (runChunks true cs).1 = cs.flatten ∧
    answerText (runChunks true cs).1 = [] := by
  induction cs with
  | nil => simp [runChunks, thinkingText, answerText]
  | cons c rest ih =>
    have hc := h c (by simp)
    obtain ⟨h1, h2, h3⟩ := ih (fun x hx => h x (by simp [hx]))
    simp only [runChunks, processChunk_think c hc]
    refine ⟨h1, ?_, ?_⟩
    · rw [thinkingText_append, thinkingText_flush, h2, List.flatten_cons]
    · rw [answerText_append, answerText_flush_think, h3]
      rfl

theorem runChunks_answer_run (cs : List (List Char))
    (h : ∀ c ∈ cs, containsSub thinkOpen c = false) :
    (runChunks false cs).2 = false ∧
    answerText (runChunks false cs).1 = cs.flatten ∧
    thinkingText (runChunks false cs).1 = [] := by
  induction cs with
  | nil => simp [runChunks, thinkingText, answerText]
  | cons c rest ih =>
    have hc := h c (by simp)
    obtain ⟨h1, h2, h3⟩ := ih (fun x hx => h x (by simp [hx]))
    simp only [runChunks, processChunk_answer c hc]
    refine ⟨h1, ?_, ?_⟩
    · rw [answerText_append, answerText_flush, h2, List.flatten_cons]
    · rw [thinkingText_append, thinkingText_flush_ans, h3]
      rfl

theorem runChunks_append (s : Bool) (as bs : List (List Char)) :
    runChunks s (as ++ bs) =
      ((runChunks s as).1 ++ (runChunks (runChunks s as).2 bs).1,
        (runChunks (runChunks s as).2 bs).2) := by
  induction as generalizing s with
  | nil => simp [runChunks]
  | cons c rest ih => simp [runChunks, ih, List.append_assoc]

/-! ### The thinking-mode token loop is a fold of `processChunk` -/

theorem streamLoop_chunkLines (cs : List (List Char)) :
    ∀ i s, streamLoop none true (chunkLines cs) i s = (runChunks s cs).1 := by
  induction cs with
  | nil => intro i s; simp [chunkLines, streamLoop, runChunks]
  | cons c rest ih =>
    intro i s
    have hrest := ih
    simp only [chunkLines] at hrest
    by_cases hce : c.isEmpty
    · have hc : c = [] := List.isEmpty_iff.mp hce
      subst hc
      simp [chunkLines, streamLoop, stoppedAt, runChunks, processChunk_nil, hrest (i + 1) s]
    · simp [chunkLines, streamLoop, stoppedAt, runChunks, hce, hrest (i + 1) (processChunk s c).2]

theorem thinkingText_cons_think (x : List Char) (l : List Ev) :
    thinkingText (Ev.thinking x :: l) = x ++ thinkingText l := by simp [thinkingText]

theorem answerText_cons_think (x : List Char) (l : List Ev) :
    answerText (Ev.thinking x :: l) = answerText l := by simp [answerText]

theorem thinkingText_cons_model (l : List Ev) :
    thinkingText (Ev.model_info :: l) = thinkingText l := by simp [thinkingText]

theorem answerText_cons_model (l : List Ev) :
    answerText (Ev.model_info :: l) = answerText l := by simp [answerText]

theorem mem_flatten_decomp {c : List Char} {cs : List (List Char)} (h : c ∈ cs) :
    ∃ u v, cs.flatten = u ++ c ++ v := by
  induction cs with
  | nil => cases h
  | cons d rest ih =>
    rcases List.mem_cons.mp h with hcd | hmem
    · subst hcd; exact ⟨[], rest.flatten, by simp⟩
    · obtain ⟨u, v, hu⟩ := ih hmem
      exact ⟨d ++ u, v, by simp [hu, List.append_assoc]⟩

/-- C2 (amended): if the text `<think> ++ X ++ </think> ++ Y` is split into
sub-chunks fed one at a time to the streaming router in thinking-model
mode, where `X` contains no `</think>`, `Y` contains no `<think>`, and
every delimiter occurrence lies entirely inside one sub-chunk, then the
concatenated `thinking` texts equal `X` and the concatenated `answer`
texts equal `Y`.  (The original claim, quantifying over splits that cut a
delimiter in two, is refuted by `C2_split_delimiter_misroutes`: the code
flushes its buffer after every token and retains nothing across chunk
boundaries.) -/
theorem C2_delimiter_split_routing (X Y : List Char) (cs : List (List Char))
    (hX : containsSub thinkClose X = false) (hY : containsSub thinkOpen Y = false)
    (hcs : isAlignedChunking X Y cs) :
    thinkingText (streamEvents none true (chunkLines cs)) = X ∧
    answerText (streamEvents none true (chunkLines cs)) = Y := by
  have hrun : thinkingText (runChunks false cs).1 = X ∧
      answerText (runChunks false cs).1 = Y := by
    rcases hcs with ⟨y0, ys, hcseq, hYeq⟩ | ⟨x0, xs, xl, y0, ys, hcseq, hXeq, hYeq⟩
    · subst hcseq
      have hy0 : containsSub thinkOpen y0 = false :=
        containsSub_split thinkOpen Y [] y0 ys.flatten (by decide) hY (by rw [hYeq]; simp)
      have hys : ∀ c ∈ ys, containsSub thinkOpen c = false := by
        intro c hcm
        obtain ⟨u, v, huv⟩ := mem_flatten_decomp hcm
        exact containsSub_split thinkOpen Y (y0 ++ u) c v (by decide) hY
          (by rw [hYeq, huv]; simp)
      obtain ⟨hys2, hysA, hysT⟩ := runChunks_answer_run ys hys
      simp only [runChunks, processChunk_bothTags X y0 hX hy0]
      constructor
      · rw [List.cons_append, thinkingText_cons_think, thinkingText_append,
          thinkingText_flush_ans, hysT]
        simp
      · rw [List.cons_append, answerText_cons_think, answerText_append,
          answerText_flush, hysA, hYeq]
    · subst hcseq
      have hx0 : containsSub thinkClose x0 = false :=
        containsSub_split thinkClose X [] x0 (xs.flatten ++ xl) (by decide) hX
          (by rw [hXeq]; simp)
      have hxl : containsSub thinkClose xl = false :=
        containsSub_split thinkClose X (x0 ++ xs.flatten) xl [] (by decide) hX
          (by rw [hXeq]; simp)
      have hxs : ∀ c ∈ xs, containsSub thinkClose c = false := by
        intro c hcm
        obtain ⟨u, v, huv⟩ := mem_flatten_decomp hcm
        exact containsSub_split thinkClose X (x0 ++ u) c (v ++ xl) (by decide) hX
          (by rw [hXeq, huv]; simp)
      have hy0 : containsSub thinkOpen y0 = false :=
        containsSub_split thinkOpen Y [] y0 ys.flatten (by decide) hY (by rw [hYeq]; simp)
      have hys : ∀ c ∈ ys, containsSub thinkOpen c = false := by
        intro c hcm
        obtain ⟨u, v, huv⟩ := mem_flatten_decomp hcm
        exact containsSub_split thinkOpen Y (y0 ++ u) c v (by decide) hY
          (by rw [hYeq, huv]; simp)
      obtain ⟨hxs2, hxsT, hxsA⟩ := runChunks_thinking_run xs hxs
      obtain ⟨hys2, hysA, hysT⟩ := runChunks_answer_run ys hys
      simp only [runChunks, processChunk_openTag x0 hx0, List.append_eq]
      rw [runChunks_append true xs ((xl ++ thinkClose ++ y0) :: ys), hxs2]
      simp only [runChunks, processChunk_closeTag xl y0 hxl hy0]
      constructor
      · rw [thinkingText_append, thinkingText_flush, thinkingText_append, hxsT,
          List.cons_append, thinkingText_cons_think, thinkingText_append,
          thinkingText_flush_ans, hysT, hXeq]
        simp
      · rw [answerText_append, answerText_flush_think, answerText_append, hxsA,
          List.cons_append, answerText_cons_think, answerText_append,
          answerText_flush, hysA, hYeq]
        simp
  have hev : streamEvents none true (chunkLines cs) =
      Ev.model_info :: (runChunks false cs).1 := by
    rw [streamEvents, streamLoop_chunkLines cs 0 false]
  rw [hev, thinkingText_cons_model, answerText_cons_model]
  exact hrun

/-! ### Event-shape lemmas for the token loop -/

theorem tagLoopAux_content :
    ∀ f (s : Bool) (buf : List Char), ∀ e ∈ (tagLoopAux f s buf).1, isContentB e = true := by
  intro f
  induction f with
  | zero => intro s buf e he; simp [tagLoopAux] at he
  | succ k ih =>
    intro s buf e he
    cases s with
    | true =>
      simp only [tagLoopAux, if_true] at he
      cases hsf : splitFirst thinkClose buf with
      | none => rw [hsf] at he; simp at he
      | some pr =>
        obtain ⟨t, a⟩ := pr
        rw [hsf] at he
        simp only [List.mem_cons] at he
        rcases he with he | he
        · subst he; rfl
        · exact ih false a e he
    | false =>
      simp only [tagLoopAux, Bool.false_eq_true, if_false] at he
      cases hsf : splitFirst thinkOpen buf with
      | none => rw [hsf] at he; simp at he
      | some pr =>
        obtain ⟨b, a⟩ := pr
        rw [hsf] at he
        simp only [List.mem_append, List.mem_map] at he
        rcases he with ⟨ch, _, hch⟩ | he
        · subst hch; rfl
        · exact ih true a e he

theorem processChunk_content (s : Bool) (c : List Char) :
    ∀ e ∈ (processChunk s c).1, isContentB e = true := by
  intro e he
  simp only [processChunk, List.mem_append] at he
  rcases he with he | he
  · exact tagLoopAux_content _ _ _ e he
  · by_cases hre : (tagLoop s c).2.2.isEmpty
    · rw [if_pos hre] at he; simp at he
    · rw [if_neg hre] at he
      simp only [List.mem_singleton] at he
      subst he
      split <;> rfl

theorem chunkStep_content (isTh s : Bool) (resp : List Char) :
    ∀ e ∈ (if resp.isEmpty then (([] : List Ev), s)
        else if isTh then processChunk s resp
        else ([Ev.answer resp], s)).1, isContentB e = true := by
  intro e he
  by_cases hre : resp.isEmpty
  · rw [if_pos hre] at he; simp at he
  · rw [if_neg hre] at he
    by_cases hth : isTh = true
    · rw [if_pos hth] at he; exact processChunk_content s resp e he
    · rw [if_neg hth] at he
      simp only [List.mem_singleton] at he
      subst he; rfl

theorem streamLoop_shape (stopAt : Option Nat) (isTh : Bool) :
    ∀ (lines : List Line) (i : Nat) (s : Bool),
      ∃ mid t, streamLoop stopAt isTh lines i s = mid ++ t ∧
        (∀ e ∈ mid, isContentB e = true) ∧ (∀ e ∈ t, isTerminalB e = true) ∧ t.length ≤ 1 := by
  intro lines
  induction lines with
  | nil => intro i s; exact ⟨[], [], by simp [streamLoop], by simp, by simp, by simp⟩
  | cons l rest ih =>
    intro i s
    cases l with
    | exc =>
      refine ⟨[], [Ev.error], by simp [streamLoop], by simp, ?_, by simp⟩
      intro e he; simp only [List.mem_singleton] at he; subst he; rfl
    | junk =>
      by_cases hst : stoppedAt stopAt i = true
      · refine ⟨[], [Ev.final], by simp [streamLoop, hst], by simp, ?_, by simp⟩
        intro e he; simp only [List.mem_singleton] at he; subst he; rfl
      · obtain ⟨mid, t, heq, hmid, ht, hlen⟩ := ih (i + 1) s
        exact ⟨mid, t, by simp [streamLoop, hst, heq], hmid, ht, hlen⟩
    | chunk c =>
      by_cases hst : stoppedAt stopAt i = true
      · refine ⟨[], [Ev.final], by simp [streamLoop, hst], by simp, ?_, by simp⟩
        intro e he; simp only [List.mem_singleton] at he; subst he; rfl
      · by_cases hdone : c.done = true
        · refine ⟨(if c.response.isEmpty then (([] : List Ev), s)
              else if isTh then processChunk s c.response
              else ([Ev.answer c.response], s)).1, [Ev.final],
            by simp [streamLoop, hst, hdone], chunkStep_content isTh s c.response, ?_, by simp⟩
          intro e he; simp only [List.mem_singleton] at he; subst he; rfl
        · obtain ⟨mid, t, heq, hmid, ht, hlen⟩ := ih (i + 1)
            (if c.response.isEmpty then (([] : List Ev), s)
              else if isTh then processChunk s c.response
              else ([Ev.answer c.response], s)).2
          refine ⟨(if c.response.isEmpty then (([] : List Ev), s)
              else if isTh then processChunk s c.response
              else ([Ev.answer c.response], s)).1 ++ mid, t,
            by simp only [List.isEmpty_iff] at heq
               simp [streamLoop, hst, hdone, heq, List.append_assoc], ?_, ht, hlen⟩
          intro e he
          rcases List.mem_append.mp he with he | he
          · exact chunkStep_content isTh s c.response e he
          · exact hmid e he

theorem streamLoop_content_of_clean (isTh : Bool) :
    ∀ (k : List Line) (i : Nat) (s : Bool), (∀ l ∈ k, nonTerminalLine l = true) →
      ∀ e ∈ streamLoop none isTh k i s, isContentB e = true := by
  intro k
  induction k with
  | nil => intro i s _ e he; simp [streamLoop] at he
  | cons l rest ih =>
    intro i s hcl e he
    have hl := hcl l (by simp)
    cases l with
    | exc => simp [nonTerminalLine] at hl
    | junk =>
      simp only [streamLoop, stoppedAt, Bool.false_eq_true, if_false] at he
      exact ih (i + 1) s (fun x hx => hcl x (by simp [hx])) e he
    | chunk c =>
      have hdone : c.done = false := by simpa [nonTerminalLine] using hl
      simp only [streamLoop, stoppedAt, hdone, Bool.false_eq_true, if_false] at he
      rcases List.mem_append.mp he with he | he
      · exact chunkStep_content isTh s c.response e he
      · exact ih (i + 1) _ (fun x hx => hcl x (by simp [hx])) e he

theorem stoppedAt_none (i : Nat) : stoppedAt none i = false := rfl

theorem streamLoop_stop_cut (isTh : Bool) :
    ∀ (n : Nat) (lines : List Line) (i : Nat) (s : Bool),
      n < lines.length → (∀ l ∈ lines.take n, nonTerminalLine l = true) →
      ∃ t, isTerminalB t = true ∧
        streamLoop (some (i + n)) isTh lines i s =
          streamLoop none isTh (lines.take n) i s ++ [t] := by
  intro n
  induction n with
  | zero =>
    intro lines i s hlen _
    cases lines with
    | nil => simp at hlen
    | cons l rest =>
      have hstop : stoppedAt (some (i + 0)) i = true := by simp [stoppedAt]
      cases l with
      | exc => exact ⟨Ev.error, rfl, by simp [streamLoop]⟩
      | junk =>
        refine ⟨Ev.final, rfl, ?_⟩
        rw [List.take_zero]
        simp only [streamLoop, hstop, if_true, List.nil_append]
      | chunk c =>
        refine ⟨Ev.final, rfl, ?_⟩
        rw [List.take_zero]
        simp only [streamLoop, hstop, if_true, List.nil_append]
  | succ m ih =>
    intro lines i s hlen hcl
    cases lines with
    | nil => simp at hlen
    | cons l rest =>
      have hl := hcl l (by simp)
      have hstop : stoppedAt (some (i + (m + 1))) i = false := by
        simp only [stoppedAt, decide_eq_false_iff_not]
        omega
      have hsucc : i + (m + 1) = (i + 1) + m := by omega
      cases l with
      | exc => simp [nonTerminalLine] at hl
      | junk =>
        obtain ⟨t, hterm, heq⟩ := ih rest (i + 1) s (by simpa using hlen)
          (fun x hx => hcl x (by simp [hx]))
        refine ⟨t, hterm, ?_⟩
        rw [List.take_succ_cons]
        simp only [streamLoop, hstop, stoppedAt_none, Bool.false_eq_true, if_false]
        rw [hsucc, heq]
      | chunk c =>
        have hdone : c.done = false := by simpa [nonTerminalLine] using hl
        obtain ⟨t, hterm, heq⟩ := ih rest (i + 1)
          ((if c.response.isEmpty then (([] : List Ev), s)
            else if isTh then processChunk s c.response
            else ([Ev.answer c.response], s)).2) (by simpa using hlen)
          (fun x hx => hcl x (by simp [hx]))
        refine ⟨t, hterm, ?_⟩
        rw [List.take_succ_cons]
        simp only [streamLoop, hstop, stoppedAt_none, Bool.false_eq_true, if_false, hdone]
        rw [hsucc, heq, List.append_assoc]

theorem runChunks_answer_events (cs : List (List Char))
    (h : ∀ c ∈ cs, containsSub thinkOpen c = false) :
    (runChunks false cs).1 = (cs.filter (fun c => !c.isEmpty)).map Ev.answer ∧
    (runChunks false cs).2 = false := by
  induction cs with
  | nil => simp [runChunks]
  | cons c rest ih =>
    have hc := h c (by simp)
    obtain ⟨h1, h2⟩ := ih (fun x hx => h x (by simp [hx]))
    simp only [runChunks, processChunk_answer c hc]
    constructor
    · by_cases hce : c.isEmpty
      · simp [hce, h1]
      · simp [hce, h1]
    · exact h2

/-- C2 counterexample: splitting the opening delimiter of
`<think>AB</think>CD` across two sub-chunks (`<th` + `ink>AB</think>CD`)
makes the router emit everything as `answer` events and nothing as
`thinking`: the delimiter split between chunks is not detected, because the
buffer is flushed at the end of every token and no trailing buffer is
retained across chunk boundaries. -/
theorem C2_split_delimiter_misroutes :
    thinkingText (streamEvents none true
        (chunkLines ["<th".toList, "ink>AB</think>CD".toList])) = [] ∧
    thinkingText (streamEvents none true
        (chunkLines ["<th".toList, "ink>AB</think>CD".toList])) ≠ "AB".toList ∧
    answerText (streamEvents none true
        (chunkLines ["<th".toList, "ink>AB</think>CD".toList])) =
      "<think>AB</think>CD".toList ∧
    answerText (streamEvents none true
        (chunkLines ["<th".toList, "ink>AB</think>CD".toList])) ≠ "CD".toList := by
  decide

/-- C2 witness: the amended theorem applied to `X = AB`, `Y = CD` and the
delimiter-aligned chunking `<think>A` / `B</think>C` / `D`. -/
theorem C2_delimiter_split_witness :
    thinkingText (streamEvents none true
        (chunkLines ["<think>A".toList, "B</think>C".toList, "D".toList])) = "AB".toList ∧
    answerText (streamEvents none true
        (chunkLines ["<think>A".toList, "B</think>C".toList, "D".toList])) = "CD".toList :=
  C2_delimiter_split_routing "AB".toList "CD".toList
    ["<think>A".toList, "B</think>C".toList, "D".toList] (by decide) (by decide)
    (Or.inr ⟨"A".toList, [], "B".toList, "C".toList, ["D".toList],
      by decide, by decide, by decide⟩)

/-- C3 (amended): for every successfully opened stream the event sequence
is exactly one leading `model_info`, then content (`thinking`/`answer`)
events, then at most one terminal event, which is always last.  (The
original claim's "exactly one terminal event even when the backend stream
ends without a done marker" is refuted by `C3_missing_terminal_event`: when
the line iterator is exhausted without a done marker, stop signal or
exception, the generator ends with no terminal event at all.) -/
theorem C3_event_shape (stopAt : Option Nat) (isTh : Bool) (lines : List Line) :
    ∃ mid t, streamEvents stopAt isTh lines = Ev.model_info :: (mid ++ t) ∧
      (∀ e ∈ mid, isContentB e = true) ∧ (∀ e ∈ t, isTerminalB e = true) ∧
      t.length ≤ 1 := by
  obtain ⟨mid, t, heq, hmid, ht, hlen⟩ := streamLoop_shape stopAt isTh lines 0 false
  exact ⟨mid, t, by rw [streamEvents, heq], hmid, ht, hlen⟩

/-- C3 counterexample: a backend stream that delivers one token and then
ends without a done marker produces no terminal event at all — the claim's
"a terminal event is emitted even if the backend token stream ends without
a done marker" fails on the code. -/
theorem C3_missing_terminal_event :
    streamEvents none false [Line.chunk { response := "hi".toList, done := false }] =
      [Ev.model_info, Ev.answer "hi".toList] ∧
    ∀ e ∈ streamEvents none false [Line.chunk { response := "hi".toList, done := false }],
      isTerminalB e = false := by
  decide

/-- C4: if the cancellation flag is set in time for the check of iteration
`n` (and the loop is still running then: the first `n` lines neither raised
nor carried a done marker, and an `n`-th line exists), the emitted events
are the `model_info` header, the content events of the first `n` lines
only, and exactly one terminal event; nothing from any later line is
emitted. -/
theorem C4_cancellation (n : Nat) (lines : List Line) (isTh : Bool)
    (hlen : n < lines.length)
    (hclean : ∀ l ∈ lines.take n, nonTerminalLine l = true) :
    ∃ t, isTerminalB t = true ∧
      streamEvents (some n) isTh lines =
        Ev.model_info :: (streamLoop none isTh (lines.take n) 0 false ++ [t]) ∧
      (∀ e ∈ streamLoop none isTh (lines.take n) 0 false, isContentB e = true) := by
  obtain ⟨t, hterm, heq⟩ := streamLoop_stop_cut isTh n lines 0 false hlen hclean
  rw [Nat.zero_add] at heq
  exact ⟨t, hterm, by rw [streamEvents, heq],
    streamLoop_content_of_clean isTh (lines.take n) 0 false hclean⟩

/-- C4 witness at a concrete three-token stream with the flag set before
iteration 1. -/
theorem C4_cancellation_witness :
    ∃ t, isTerminalB t = true ∧
      streamEvents (some 1) false
          [Line.chunk { response := "a".toList, done := false },
           Line.chunk { response := "b".toList, done := false },
           Line.chunk { response := "c".toList, done := false }] =
        Ev.model_info ::
          (streamLoop none false
            ([Line.chunk { response := "a".toList, done := false },
              Line.chunk { response := "b".toList, done := false },
              Line.chunk { response := "c".toList, done := false }].take 1) 0 false ++ [t]) ∧
      (∀ e ∈ streamLoop none false
          ([Line.chunk { response := "a".toList, done := false },
            Line.chunk { response := "b".toList, done := false },
            Line.chunk { response := "c".toList, done := false }].take 1) 0 false,
        isContentB e = true) :=
  C4_cancellation 1
    [Line.chunk { response := "a".toList, done := false },
     Line.chunk { response := "b".toList, done := false },
     Line.chunk { response := "c".toList, done := false }] false (by decide) (by decide)

/-- C7 (amended): on a thinking-model token stream in which no token
contains the opening delimiter, the router emits every nonempty token
immediately as an `answer` event — it stays out of the thinking state, it
never withholds text, and there is no 50-character buffered fail-open to
`thinking` in the code.  (The claimed transition to the thinking state
after 50 buffered characters is refuted by `C7_emits_answer_not_thinking`.) -/
theorem C7_no_delimiter_fail_open (cs : List (List Char))
    (h : ∀ c ∈ cs, containsSub thinkOpen c = false) :
    streamEvents none true (chunkLines cs) =
      Ev.model_info :: (cs.filter (fun c => !c.isEmpty)).map Ev.answer := by
  obtain ⟨h1, _⟩ := runChunks_answer_events cs h
  rw [streamEvents, streamLoop_chunkLines cs 0 false, h1]

/-- C7 witness: two delimiter-free tokens are streamed straight through as
`answer` events. -/
theorem C7_no_delimiter_witness :
    streamEvents none true (chunkLines ["hello ".toList, "world".toList]) =
      Ev.model_info ::
        (["hello ".toList, "world".toList].filter (fun c => !c.isEmpty)).map Ev.answer :=
  C7_no_delimiter_fail_open ["hello ".toList, "world".toList] (by decide)

/-- C7 counterexample: a single 60-character token with no delimiter (well
past the claimed 50-character fail-open bound) is emitted as an `answer`
event, not as a `thinking` event: the code has no buffered fail-open to
the thinking state. -/
theorem C7_emits_answer_not_thinking :
    streamEvents none true [Line.chunk { response := List.replicate 60 'a', done := false }] =
      [Ev.model_info, Ev.answer (List.replicate 60 'a')] ∧
    thinkingText (streamEvents none true
      [Line.chunk { response := List.replicate 60 'a', done := false }]) = [] := by
  decide

/-! ### Bounds for the routing decision -/

theorem conf_nonneg_core (thr dv sd hd : ℚ) (g l h p : ℕ)
    (h0 : 0 ≤ hd) :
    0 ≤ (if hd ≥ thr ∧ sd ≥ dv ∧ 0 < g ∧ p = 0 then
          min 0.9 (0.5 + hd * 0.4 + (min g 3 : ℚ) * 0.1)
        else if hd < 0.2 ∧ (0 < l ∨ 0 < p) then
          min 0.8 (0.4 + ((l : ℚ) + (p : ℚ)) * 0.15)
        else if 0 < h ∨ (0.2 ≤ hd ∧ hd < thr) ∨ (0 < g ∧ 0 < l) then
          0.3 + hd * 0.3 + (h : ℚ) * 0.1
        else 0.2 + hd * 0.2) := by
  have hg : (0:ℚ) ≤ (min g 3 : ℚ) := by positivity
  have hl : (0:ℚ) ≤ (l : ℚ) + (p : ℚ) := by positivity
  have hh : (0:ℚ) ≤ (h : ℚ) := by positivity
  split
  · refine le_min (by norm_num) (by nlinarith)
  · split
    · refine le_min (by norm_num) (by nlinarith)
    · split
      · nlinarith
      · nlinarith

theorem conf_le_one_core (thr dv sd hd : ℚ) (g l h p : ℕ)
    (h1 : hd ≤ 1) (hc : h ≤ 4) :
    (if hd ≥ thr ∧ sd ≥ dv ∧ 0 < g ∧ p = 0 then
        min 0.9 (0.5 + hd * 0.4 + (min g 3 : ℚ) * 0.1)
      else if hd < 0.2 ∧ (0 < l ∨ 0 < p) then
        min 0.8 (0.4 + ((l : ℚ) + (p : ℚ)) * 0.15)
      else if 0 < h ∨ (0.2 ≤ hd ∧ hd < thr) ∨ (0 < g ∧ 0 < l) then
        0.3 + hd * 0.3 + (h : ℚ) * 0.1
      else 0.2 + hd * 0.2) ≤ 1 := by
  have hcq : (h : ℚ) ≤ 4 := by exact_mod_cast hc
  split
  · exact le_trans (min_le_left _ _) (by norm_num)
  · split
    · exact le_trans (min_le_left _ _) (by norm_num)
    · split
      · nlinarith
      · nlinarith

theorem hit_density_bounds (c : Classifier) (rs : List SearchResult) :
    0 ≤ (calculate_retrieval_metrics c rs).hit_density ∧
    (calculate_retrieval_metrics c rs).hit_density ≤ 1 := by
  rw [calculate_retrieval_metrics]
  by_cases hrs : rs.isEmpty
  · rw [if_pos hrs]; norm_num
  · rw [if_neg hrs]
    have hne : rs ≠ [] := fun hn => hrs (by simp [hn])
    have hpos : 0 < (rs.length : ℚ) := by exact_mod_cast List.length_pos.mpr hne
    constructor
    · positivity
    · rw [div_le_one hpos]
      exact_mod_cast List.length_filter_le _ rs

/-- C1 (amended): for every question, every retrieval-result list (or none)
and every threshold configuration, the classification reached through
`classify_with_retrieval` returns a route that is exactly one of `RAG`,
`GENERAL`, `HYBRID`, and a confidence that is nonnegative; the upper bound
`confidence ≤ 1` holds whenever at most 4 hybrid keywords match.  (The
unconditional bound `confidence ≤ 1` of the original claim is refuted by
`C1_confidence_exceeds_one`: the medium-`HYBRID` branch computes
`0.3 + hit_density*0.3 + hybrid_signals*0.1` without any cap.) -/
theorem C1_route_and_confidence (c : Classifier) (question : List Char)
    (search_results : Option (List SearchResult)) :
    ((classify_with_retrieval c question search_results).route = "RAG" ∨
     (classify_with_retrieval c question search_results).route = "GENERAL" ∨
     (classify_with_retrieval c question search_results).route = "HYBRID") ∧
    0 ≤ (classify_with_retrieval c question search_results).confidence ∧
    ((classify_keywords question).hybrid.length ≤ 4 →
      (classify_with_retrieval c question search_results).confidence ≤ 1) := by
  refine ⟨?_, ?_, ?_⟩
  · simp only [classify_with_retrieval, route_decision]
    split
    · exact Or.inl rfl
    · split
      · exact Or.inr (Or.inl rfl)
      · split
        · exact Or.inr (Or.inr rfl)
        · exact Or.inr (Or.inr rfl)
  · cases search_results with
    | none =>
      simp only [classify_with_retrieval, Option.map_none', route_decision,
        apply_ite RouteResult.confidence]
      exact conf_nonneg_core _ _ _ _ _ _ _ _ (le_refl 0)
    | some rs =>
      simp only [classify_with_retrieval, Option.map_some', route_decision,
        apply_ite RouteResult.confidence]
      exact conf_nonneg_core _ _ _ _ _ _ _ _ (hit_density_bounds c rs).1
  · intro hh
    cases search_results with
    | none =>
      simp only [classify_with_retrieval, Option.map_none', route_decision,
        apply_ite RouteResult.confidence]
      exact conf_le_one_core _ _ _ _ _ _ _ _ (by norm_num) hh
    | some rs =>
      simp only [classify_with_retrieval, Option.map_some', route_decision,
        apply_ite RouteResult.confidence]
      exact conf_le_one_core _ _ _ _ _ _ _ _ (hit_density_bounds c rs).2 hh

/-- C1 witness: the bounds instantiated at the default thresholds, the
question `x` and no retrieval results. -/
theorem C1_route_and_confidence_witness :
    ((classify_with_retrieval defaultClassifier "x".toList none).route = "RAG" ∨
     (classify_with_retrieval defaultClassifier "x".toList none).route = "GENERAL" ∨
     (classify_with_retrieval defaultClassifier "x".toList none).route = "HYBRID") ∧
    0 ≤ (classify_with_retrieval defaultClassifier "x".toList none).confidence ∧
    (classify_with_retrieval defaultClassifier "x".toList none).confidence ≤ 1 :=
  ⟨(C1_route_and_confidence defaultClassifier "x".toList none).1,
   (C1_route_and_confidence defaultClassifier "x".toList none).2.1,
   (C1_route_and_confidence defaultClassifier "x".toList none).2.2 (by decide)⟩

/-- C1 counterexample: a question matching 8 hybrid keywords with no
retrieval results lands in the medium-`HYBRID` branch, whose confidence
`0.3 + 0*0.3 + 8*0.1 = 1.1` exceeds 1 — the claimed `confidence ∈ [0,1]`
fails. -/
theorem C1_confidence_exceeds_one :
    (classify_with_retrieval defaultClassifier
      "example usage meaning analysis compare difference similar clarify".toList
      none).confidence = 11/10 ∧
    ¬ (classify_with_retrieval defaultClassifier
        "example usage meaning analysis compare difference similar clarify".toList
        none).confidence ≤ 1 := by
  have hks : classify_keywords
      "example usage meaning analysis compare difference similar clarify".toList =
      { grammar := [], literature := [],
        hybrid := ["example", "usage", "meaning", "analysis", "compare", "difference",
          "similar", "clarify"],
        general_patterns := [] } := by decide
  have hconf : (classify_with_retrieval defaultClassifier
      "example usage meaning analysis compare difference similar clarify".toList
      none).confidence = 11/10 := by
    simp only [classify_with_retrieval, Option.map_none', route_decision, hks]
    norm_num [defaultClassifier]
  exact ⟨hconf, by rw [hconf]; norm_num⟩

/-! ### Concrete evaluations for the `Explain べし` scenario -/

theorem c6_keywords_eval : classify_keywords "Explain べし".toList =
    { grammar := [], literature := [], hybrid := ["explain"], general_patterns := [] } := by
  decide

theorem c6_metrics_eval :
    calculate_retrieval_metrics defaultClassifier
      [⟨"t1".toList, some "s1", some 0.1⟩, ⟨"t2".toList, some "s1", some 0.1⟩,
       ⟨"t3".toList, some "s2", some 0.1⟩] =
    { hit_density := 1, avg_distance := 1/10, source_diversity := 2, top_k_count := 3 } := by
  norm_num +decide [calculate_retrieval_metrics, getDistance, getSource, defaultClassifier,
    List.dedup, List.pwFilter, List.filter]

theorem c6_route_eval :
    (classify_with_retrieval defaultClassifier "Explain べし".toList
      (some [⟨"t1".toList, some "s1", some 0.1⟩, ⟨"t2".toList, some "s1", some 0.1⟩,
             ⟨"t3".toList, some "s2", some 0.1⟩])).route = "HYBRID" := by
  simp only [classify_with_retrieval, Option.map_some', route_decision, c6_keywords_eval,
    c6_metrics_eval]
  norm_num [defaultClassifier]

theorem c6_conf_eval :
    (classify_with_retrieval defaultClassifier "Explain べし".toList
      (some [⟨"t1".toList, some "s1", some 0.1⟩, ⟨"t2".toList, some "s1", some 0.1⟩,
             ⟨"t3".toList, some "s2", some 0.1⟩])).confidence = 7/10 := by
  simp only [classify_with_retrieval, Option.map_some', route_decision, c6_keywords_eval,
    c6_metrics_eval]
  norm_num [defaultClassifier]

/-- C6 counterexample: on exactly the claimed scenario (question
`Explain べし`, three passages of distance 0.1 from two sources, default
thresholds) the route is not `RAG` and the confidence is not 0.9: `べし` is
not in `GRAMMAR_KEYWORDS`, so the `RAG` branch's `grammar_signals > 0`
guard fails. -/
theorem C6_not_rag_not_09 :
    (classify_with_retrieval defaultClassifier "Explain べし".toList
      (some [⟨"t1".toList, some "s1", some 0.1⟩, ⟨"t2".toList, some "s1", some 0.1⟩,
             ⟨"t3".toList, some "s2", some 0.1⟩])).route ≠ "RAG" ∧
    (classify_with_retrieval defaultClassifier "Explain べし".toList
      (some [⟨"t1".toList, some "s1", some 0.1⟩, ⟨"t2".toList, some "s1", some 0.1⟩,
             ⟨"t3".toList, some "s2", some 0.1⟩])).confidence ≠ 9/10 :=
  ⟨by rw [c6_route_eval]; decide, by rw [c6_conf_eval]; norm_num⟩

/-- C6 (amended): on the claimed scenario the classifier finds no grammar
keyword (`べし` is not in `GRAMMAR_KEYWORDS`) but matches `explain` as a
hybrid keyword, so the route is `HYBRID` with confidence
`0.3 + 1*0.3 + 1*0.1 = 0.7` from the medium-`HYBRID` branch. -/
theorem C6_scenario_eval :
    (classify_with_retrieval defaultClassifier "Explain べし".toList
      (some [⟨"t1".toList, some "s1", some 0.1⟩, ⟨"t2".toList, some "s1", some 0.1⟩,
             ⟨"t3".toList, some "s2", some 0.1⟩])).keyword_signals.grammar = [] ∧
    (classify_with_retrieval defaultClassifier "Explain べし".toList
      (some [⟨"t1".toList, some "s1", some 0.1⟩, ⟨"t2".toList, some "s1", some 0.1⟩,
             ⟨"t3".toList, some "s2", some 0.1⟩])).keyword_signals.hybrid = ["explain"] ∧
    (classify_with_retrieval defaultClassifier "Explain べし".toList
      (some [⟨"t1".toList, some "s1", some 0.1⟩, ⟨"t2".toList, some "s1", some 0.1⟩,
             ⟨"t3".toList, some "s2", some 0.1⟩])).route = "HYBRID" ∧
    (classify_with_retrieval defaultClassifier "Explain べし".toList
      (some [⟨"t1".toList, some "s1", some 0.1⟩, ⟨"t2".toList, some "s1", some 0.1⟩,
             ⟨"t3".toList, some "s2", some 0.1⟩])).confidence = 7/10 := by
  refine ⟨?_, ?_, c6_route_eval, c6_conf_eval⟩
  · simp only [classify_with_retrieval, c6_keywords_eval]
  · simp only [classify_with_retrieval, c6_keywords_eval]

/-! ### Concrete evaluations for the manual-override telemetry -/

theorem c5_keywords_eval : classify_keywords "tell me about genji".toList =
    { grammar := [], literature := ["genji"], hybrid := [],
      general_patterns := ["tell me about"] } := by
  decide

theorem c5_auto_route_eval :
    (classify_with_retrieval defaultClassifier "tell me about genji".toList
      (some [])).route = "GENERAL" := by
  simp only [classify_with_retrieval, Option.map_some', route_decision, c5_keywords_eval,
    calculate_retrieval_metrics, List.isEmpty_nil, if_true]
  norm_num [defaultClassifier]

/-- C5 (code bug): with question `tell me about genji`, no retrieval
results and manual mode `RAG`, the automatic route would be `GENERAL`, the
result's route is replaced by `RAG`, the telemetry confidence still is the
automatic one — but the telemetry records `manual_override = false`, since
the source compares `knowledge_mode` with `classification.route` after
having overwritten the latter with the former (the flag is always
`False`). -/
theorem C5_manual_override_recorded_false :
    (classify_with_retrieval defaultClassifier "tell me about genji".toList
        (some [])).route = "GENERAL" ∧
    (query_hybrid_route defaultClassifier "tell me about genji".toList "RAG" []).1.route
        = "RAG" ∧
    (query_hybrid_route defaultClassifier "tell me about genji".toList "RAG" []).2.route
        = "RAG" ∧
    (query_hybrid_route defaultClassifier "tell me about genji".toList "RAG" []).2.confidence =
      (classify_with_retrieval defaultClassifier "tell me about genji".toList
        (some [])).confidence ∧
    (query_hybrid_route defaultClassifier "tell me about genji".toList "RAG" []).2.manual_override
        = false :=
  ⟨c5_auto_route_eval, rfl, rfl, rfl, rfl⟩

/-! ### Retrieval failures at the streaming boundary -/

/-- C8 (amended): when the vector-store search returns without raising but
yields nothing usable (no `documents`, or an empty first batch), the
classifier-results list is empty and `query_hybrid_stream` proceeds with
empty-list defaults and returns normally.  (The original claim's "a raising
search is also treated as no passages" is refuted by
`C8_search_exception_propagates`: the search call is not wrapped in any
`try`, so its exception propagates to the caller.) -/
theorem C8_empty_retrieval_ok (c : Classifier) (question : List Char) (mode : String)
    (sr : RawSearchResults)
    (h : sr.documents = [] ∨ ∃ ds, sr.documents = [] :: ds) :
    query_hybrid_stream_model c question mode (Except.ok sr) =
      Except.ok (query_hybrid_route c question mode []) := by
  have hprep : prepare_classifier_results sr = [] := by
    rcases h with h | ⟨ds, h⟩
    · simp only [prepare_classifier_results, h]
    · simp only [prepare_classifier_results, h, List.zip_nil_left, List.map_nil]
  rw [query_hybrid_stream_model, hprep]

/-- C8 witness: a search result with no document batches at all. -/
theorem C8_empty_retrieval_witness :
    query_hybrid_stream_model defaultClassifier "q".toList "auto"
        (Except.ok { documents := [], metadatas := [], distances := [] }) =
      Except.ok (query_hybrid_route defaultClassifier "q".toList "auto" []) :=
  C8_empty_retrieval_ok defaultClassifier "q".toList "auto"
    { documents := [], metadatas := [], distances := [] } (Or.inl rfl)

/-- C8 counterexample: a search that raises propagates its exception out of
`query_hybrid_stream` instead of being treated as "no passages". -/
theorem C8_search_exception_propagates :
    query_hybrid_stream_model defaultClassifier "q2".toList "auto"
        (Except.error "ConnectionError") = Except.error "ConnectionError" := rfl

/-! ### Session isolation of the stop registry -/

/-- C9: signalling stop for session `A` leaves every other session's flag
unchanged, hence any event stream driven by session `B`'s flag is
unaffected. -/
theorem C9_stop_isolation (A B : String) (reg : String → Option Bool) (hAB : A ≠ B) :
    stop_generation_handler A reg B = reg B ∧
    ∀ (toStopAt : Option Bool → Option Nat) (isTh : Bool) (lines : List Line),
      streamEvents (toStopAt (stop_generation_handler A reg B)) isTh lines =
        streamEvents (toStopAt (reg B)) isTh lines := by
  have hfr : stop_generation_handler A reg B = reg B := by
    rw [stop_generation_handler]
    cases hra : reg A with
    | none => rfl
    | some v => exact if_neg (Ne.symm hAB)
  exact ⟨hfr, fun toStopAt isTh lines => by rw [hfr]⟩

/-- C9 witness at two concrete distinct session ids. -/
theorem C9_stop_isolation_witness :
    stop_generation_handler "session-a" (fun _ => some false) "session-b" =
        (fun _ => (some false : Option Bool)) "session-b" ∧
    ∀ (toStopAt : Option Bool → Option Nat) (isTh : Bool) (lines : List Line),
      streamEvents
          (toStopAt (stop_generation_handler "session-a" (fun _ => some false) "session-b"))
          isTh lines =
        streamEvents (toStopAt ((fun _ => (some false : Option Bool)) "session-b")) isTh lines :=
  C9_stop_isolation "session-a" "session-b" (fun _ => some false) (by decide)

/-! ### Threshold updates leave unset thresholds unchanged -/

/-- C10: in `update_thresholds`, an argument passed as `None` leaves the
corresponding stored threshold unchanged, and an argument passed as a value
replaces exactly that threshold. -/
theorem C10_update_thresholds_frame (c : Classifier)
    (hdt dms dt : Option ℚ) :
    (update_thresholds c hdt dms dt).hit_density_threshold =
        hdt.getD c.hit_density_threshold ∧
    (update_thresholds c hdt dms dt).diversity_min_sources =
        dms.getD c.diversity_min_sources ∧
    (update_thresholds c hdt dms dt).distance_threshold =
        dt.getD c.distance_threshold := by
  cases hdt <;> cases dms <;> cases dt <;>
    simp [update_thresholds]
